import Mathlib

/-!
Verification of the ownership-tracking pointer core of the
`python_like_cpp` repository: the class `child_unique_ptr<Parent, T,
Deleter>` together with its `Backtraceable<Parent>` back-reference
capability, its cycle guard `would_create_cycle`, its dynamic field map
(`operator[]` / `field_proxy`), its dynamic function registry
(`def` / `operator()` / `call`) and its `equals` service helper.

The embedding models the applicable instantiation of the template — the one
the repository's tests exercise (`Node : Backtraceable<Node>` with
`child_unique_ptr<Node, Node>`): the owned type derives
`Backtraceable<Parent>` and derives `Parent`, so the `constexpr`
applicability branches of `would_create_cycle`, `set_parent_on_child` and
`clear_parent_on_child` all take their active arm.

Heap objects are identified by natural-number addresses.  The only mutable
per-object datum the core touches is the `parent` back-reference field of
`Backtraceable`, so the heap is a map from addresses to optional parent
addresses, plus a log of addresses destroyed through the deleter.
-/

namespace PylChildPtr

/-- An object address (a `T*` / `Parent*`); `Option Nat` is a possibly-null
pointer, `none` standing for `nullptr`. -/
abbrev Addr := Nat

/-- The mutable store: `parentOf a` is the `Backtraceable::parent` field of
the object at `a` (`none` = null back-reference), and `freed` logs every
address handed to the deleter, most recent first. -/
structure Mem where
  parentOf : Addr → Option Addr
  freed : List Addr

/-- Pointwise update of a parent map at one address. -/
def setP (h : Addr → Option Addr) (a : Addr) (v : Option Addr) :
    Addr → Option Addr :=
  fun x => if x = a then v else h x

/-- The sample universe of `std::any` payloads used by the dynamic stores;
`empty` is the valueless `std::any{}` (produced for a `void` result). -/
inductive AnyV where
  | empty : AnyV
  | int : Int → AnyV
  | str : String → AnyV
  | bool : Bool → AnyV
deriving DecidableEq

/-- Compile-time type codes for the statically typed side of the erased
calls (the `U` of `std::any_cast<U>`). -/
inductive Ty where
  | tint : Ty
  | tstr : Ty
  | tbool : Ty
deriving DecidableEq

/-- The Lean type a type code denotes. -/
@[reducible] def Ty.denote : Ty → Type
  | .tint => Int
  | .tstr => String
  | .tbool => Bool

/-- Boxing a statically typed value into `std::any`. -/
def Ty.inject : (t : Ty) → t.denote → AnyV
  | .tint, v => .int v
  | .tstr, v => .str v
  | .tbool, v => .bool v

/-- `std::any_cast<U>`: checked extraction, throwing `bad_any_cast` when the
stored runtime type differs from the requested one. -/
def anyCast : (t : Ty) → AnyV → Except String t.denote
  | .tint, .int v => .ok v
  | .tstr, .str v => .ok v
  | .tbool, .bool v => .ok v
  | _, _ => .error "bad_any_cast"

/-- A type-erased dynamic function, as stored in `dyn_fns_`:
`std::function<std::any(const std::vector<std::any>&)>`, with thrown
exceptions modelled by `Except`. -/
def DynFn := List AnyV → Except String AnyV

/-- Association-list update with overwrite: `m[key] = value` on an
`std::unordered_map`. -/
def setAssoc {α : Type} : List (String × α) → String → α → List (String × α)
  | [], k, v => [(k, v)]
  | (k', v') :: rest, k, v =>
      if k' = k then (k, v) :: rest else (k', v') :: setAssoc rest k v

/-- Association-list lookup: `m.find(key)`. -/
def lookupAssoc {α : Type} : List (String × α) → String → Option α
  | [], _ => none
  | (k', v') :: rest, k => if k' = k then some v' else lookupAssoc rest k

/-- The state of one `child_unique_ptr` object: recorded parent, owned
pointer, deleter policy (an abstract token), and the two lazily allocated
dynamic stores (`none` = map not yet allocated). -/
structure Slot where
  parent_ : Option Addr
  ptr_ : Option Addr
  deleter_ : Nat
  dyn_fields_ : Option (List (String × AnyV))
  dyn_fns_ : Option (List (String × DynFn))

/-- One iterated step function for parent chains: `iterCh h c n` follows the
back-reference chain `n` steps from the possibly-null pointer `c`. -/
def iterCh (h : Addr → Option Addr) : Option Addr → Nat → Option Addr
  | c, 0 => c
  | none, _ + 1 => none
  | some a, n + 1 => iterCh h (h a) n

/-- Acyclicity of a parent map, as the spec states it: no value's
back-reference chain contains that same value. -/
def Acyclic (h : Addr → Option Addr) : Prop :=
  ∀ a n, iterCh h (some a) (n + 1) ≠ some a

/-- `c` is reachable from the possibly-null start `s` by following
back-references (in zero or more steps). -/
def ReachO (h : Addr → Option Addr) (s : Option Addr) (c : Addr) : Prop :=
  ∃ n, iterCh h s n = some c

/-- The loop body of `would_create_cycle` in its applicable branch:
`for (Parent* cur = new_parent; cur; cur = cur->parent) if (cur == child)
return true; return false;`.  The loop carries no visited set, so it is
modelled with explicit fuel: `some b` means the loop terminates with result
`b` within `fuel` iterations, and `none` for every fuel means the loop runs
forever. -/
def wcc (h : Addr → Option Addr) (child : Addr) :
    Option Addr → Nat → Option Bool
  | _, 0 => none
  | none, _ + 1 => some false
  | some cur, fuel + 1 =>
      if cur = child then some true else wcc h child (h cur) fuel

/-- `set_parent_on_child` as a memory action: when the slot owns a value
(`ptr`), that value's back-reference becomes `par`; on an empty slot it is a
no-op. -/
def setParentOnChild (m : Mem) (ptr : Option Addr) (par : Option Addr) : Mem :=
  match ptr with
  | some c => { m with parentOf := setP m.parentOf c par }
  | none => m

/-- `clear_parent_on_child`: the owned value's back-reference becomes null. -/
def clearParentOnChild (m : Mem) (ptr : Option Addr) : Mem :=
  setParentOnChild m ptr none

/-- `clear_parent_on_child(); deleter_(ptr_);` — clear the old value's
back-reference and hand it to the deleter (logged in `freed`). -/
def destroyOld (m : Mem) (ptr : Option Addr) : Mem :=
  match ptr with
  | some old => { parentOf := setP m.parentOf old none, freed := old :: m.freed }
  | none => m

/-- The adoption path of `reset(p)` after the cycle guard has allowed it:
destroy the previous value (clearing its back-reference first and logging it
as freed), install `p`, and run `set_parent_on_child` (the new value's
back-reference becomes the slot's recorded parent). -/
def adopt (m : Mem) (s : Slot) (p : Option Addr) : Mem × Slot :=
  (setParentOnChild (destroyOld m s.ptr_) p s.parent_, { s with ptr_ := p })

/-- `reset(p)`: when both `p` and the recorded parent are non-null the cycle
guard runs; `some true` makes the call a silent no-op, `some false` adopts,
and `none` (the guard loop never terminates) makes the whole call diverge,
returned as `none`. -/
def resetOp (fuel : Nat) (m : Mem) (s : Slot) (p : Option Addr) :
    Option (Mem × Slot) :=
  match p, s.parent_ with
  | some pa, some par =>
      match wcc m.parentOf pa (some par) fuel with
      | none => none
      | some true => some (m, s)
      | some false => some (adopt m s (some pa))
  | _, _ => some (adopt m s p)

/-- `release()`: clear the owned value's back-reference, hand the raw
pointer back, leave the slot empty; nothing is destroyed and the dynamic
stores stay on the slot. -/
def releaseOp (m : Mem) (s : Slot) : Mem × Slot × Option Addr :=
  (clearParentOnChild m s.ptr_, { s with ptr_ := none }, s.ptr_)

/-- The move constructor: the destination copies the source's recorded
parent, takes `other.release()`, the moved deleter and both dynamic stores,
then runs `set_parent_on_child`.  Result: (memory, destination, source
afterwards). -/
def moveCtorOp (m : Mem) (s : Slot) : Mem × Slot × Slot :=
  (setParentOnChild (clearParentOnChild m s.ptr_) s.ptr_ s.parent_,
   { parent_ := s.parent_, ptr_ := s.ptr_, deleter_ := s.deleter_,
     dyn_fields_ := s.dyn_fields_, dyn_fns_ := s.dyn_fns_ },
   { s with ptr_ := none, dyn_fields_ := none, dyn_fns_ := none })

/-- The tail of move assignment after the internal `reset`: the deleter and
both dynamic stores move from the source to the destination (even when the
reset silently refused), and the source is left empty. -/
def moveAssignFinish (r : Mem × Slot) (src : Slot) : Mem × Slot × Slot :=
  (r.1,
   { r.2 with deleter_ := src.deleter_, dyn_fields_ := src.dyn_fields_,
              dyn_fns_ := src.dyn_fns_ },
   { src with ptr_ := none, dyn_fields_ := none, dyn_fns_ := none })

/-- Move assignment `dst = std::move(src)`: `p = src.release(); dst.reset(p);`
then the deleter and both dynamic stores move over (even when the reset
silently refused).  `none` when the guard loop inside `reset` diverges. -/
def moveAssignOp (fuel : Nat) (m : Mem) (dst src : Slot) :
    Option (Mem × Slot × Slot) :=
  match resetOp fuel (clearParentOnChild m src.ptr_) dst src.ptr_ with
  | none => none
  | some r => some (moveAssignFinish r src)

/-- `swap(other)`: exchange owned pointer, deleter and both dynamic stores
(the recorded parents stay put), then `set_parent_on_child` on `this`
followed by the same on `other`.  No cycle guard runs. -/
def swapOp (m : Mem) (s1 s2 : Slot) : Mem × Slot × Slot :=
  let t1 : Slot :=
    { s1 with ptr_ := s2.ptr_, deleter_ := s2.deleter_,
              dyn_fields_ := s2.dyn_fields_, dyn_fns_ := s2.dyn_fns_ }
  let t2 : Slot :=
    { s2 with ptr_ := s1.ptr_, deleter_ := s1.deleter_,
              dyn_fields_ := s1.dyn_fields_, dyn_fns_ := s1.dyn_fns_ }
  (setParentOnChild (setParentOnChild m t1.ptr_ t1.parent_) t2.ptr_ t2.parent_,
   t1, t2)

/-- `true` exactly when the call threw (a fault). -/
def isFault {α : Type} : Except String α → Bool
  | .error _ => true
  | .ok _ => false

/-- Attribute write through `operator[]` and `field_proxy::operator=`:
faults on an empty slot, otherwise allocates the field map on first use and
stores the erased value under the key, overwriting any prior entry. -/
def attrSet (s : Slot) (k : String) (v : AnyV) : Except String Slot :=
  match s.ptr_ with
  | none => .error "child_unique_ptr::operator[] on null pointer"
  | some _ =>
      .ok { s with dyn_fields_ := some (setAssoc (s.dyn_fields_.getD []) k v) }

/-- `ptr[k].exists()` (behind the `operator[]` null check): false when the
map was never allocated or the key is absent. -/
def attrExists (s : Slot) (k : String) : Except String Bool :=
  match s.ptr_ with
  | none => .error "child_unique_ptr::operator[] on null pointer"
  | some _ =>
      .ok (match s.dyn_fields_ with
           | none => false
           | some l => (lookupAssoc l k).isSome)

/-- `ptr[k].as<U>()` (behind the `operator[]` null check): faults when no
map exists, when the key is absent, or when the stored runtime type differs
from the requested one. -/
def attrGet (t : Ty) (s : Slot) (k : String) : Except String t.denote :=
  match s.ptr_ with
  | none => .error "child_unique_ptr::operator[] on null pointer"
  | some _ =>
      match s.dyn_fields_ with
      | none => .error "field_proxy: no dynamic fields map"
      | some l =>
          match lookupAssoc l k with
          | none => .error ("field_proxy: key not found: " ++ k)
          | some v => anyCast t v

/-- Lookup of a stored field without the null-pointer gate (used to phrase
"no entry exists under the key"). -/
def fieldLookup (s : Slot) (k : String) : Option AnyV :=
  match s.dyn_fields_ with
  | none => none
  | some l => lookupAssoc l k

/-- The erased wrapper `def<R, A, B>` builds around a binary statically
typed callable (`call_fn_from_anys` specialised to arity two): check the
packed argument count against the declared arity, `std::any_cast` each
argument, invoke, box the result. -/
def callFnFromAnys2 (A B R : Ty) (f : A.denote → B.denote → R.denote)
    (args : List AnyV) : Except String AnyV :=
  if args.length = 2 then
    match args with
    | [x, y] =>
        (anyCast A x).bind fun a =>
        (anyCast B y).bind fun b =>
        .ok (R.inject (f a b))
    | _ => .error "dynamic call: argument count mismatch"
  else .error "dynamic call: argument count mismatch"

/-- `def<R, A, B>(name, f)`: allocate the function registry on first use
and store the erased wrapper under the name, overwriting any prior entry.
(`def` performs no null-pointer check in the source.) -/
def defOp2 (s : Slot) (name : String) (A B R : Ty)
    (f : A.denote → B.denote → R.denote) : Slot :=
  { s with
    dyn_fns_ := some (setAssoc (s.dyn_fns_.getD []) name
                        (callFnFromAnys2 A B R f)) }

/-- The generic invocation entrypoint `operator()(name, args...)`: faults on
an empty slot, on a slot with no registry, and on an undefined name;
otherwise invokes the stored wrapper on the packed argument list. -/
def callAny (s : Slot) (name : String) (args : List AnyV) :
    Except String AnyV :=
  match s.ptr_ with
  | none => .error "child_unique_ptr::operator(): null pointer"
  | some _ =>
      match s.dyn_fns_ with
      | none => .error "child_unique_ptr::operator(): no functions defined"
      | some l =>
          match lookupAssoc l name with
          | none =>
              .error ("child_unique_ptr::operator(): function not found: "
                      ++ name)
          | some fn => fn args

/-- `call<R>(name, args...)`: the generic entrypoint followed by
`call_result::as<R>` (a checked unwrap of the erased result). -/
def callTyped (R : Ty) (s : Slot) (name : String) (args : List AnyV) :
    Except String R.denote :=
  (callAny s name args).bind (anyCast R)

/-- Lookup of a registered function without the gates (used to phrase "the
name is undefined"). -/
def fnLookup (s : Slot) (name : String) : Option DynFn :=
  match s.dyn_fns_ with
  | none => none
  | some l => lookupAssoc l name

/-- `equals(other)`: true when both slots are empty, false when exactly one
is, and otherwise whichever equality capability the compile-time probe
selected for `T`, abstracted here as `eqFn` on the two owned addresses. -/
def equalsOp (eqFn : Addr → Addr → Bool) (s1 s2 : Slot) : Bool :=
  match s1.ptr_, s2.ptr_ with
  | none, none => true
  | none, some _ => false
  | some _, none => false
  | some a, some b => eqFn a b

/-! ### Concrete scenario states

Address conventions below: `1` is a root node `R`, `2` a child node `C`
owned by `R.left`, `3` a grandchild node `D` owned by `C.left`, `7` a free
object used by the dynamic-store scenarios. -/

/-- Back-reference map of the spec's cycle scenario: `R` owns `C`, so `C`'s
back-reference is `R` (`2 ↦ 1`). -/
def demoCycleH : Addr → Option Addr :=
  fun a => if a = 2 then some 1 else none

/-- Memory of the cycle scenario: `C.parent = R`, nothing freed. -/
def demoCycleMem : Mem := { parentOf := demoCycleH, freed := [] }

/-- The slot `C.left` (recorded parent `C`), currently empty. -/
def demoCSlot : Slot :=
  { parent_ := some 2, ptr_ := none, deleter_ := 0,
    dyn_fields_ := none, dyn_fns_ := none }

/-- The slot `R.left` (recorded parent `R`) owning `C`. -/
def demoRLeft : Slot :=
  { parent_ := some 1, ptr_ := some 2, deleter_ := 0,
    dyn_fields_ := none, dyn_fns_ := none }

/-- Back-reference map with `R` owning `C` and `C` owning `D`
(`2 ↦ 1`, `3 ↦ 2`); acyclic. -/
def demoSwapH : Addr → Option Addr :=
  fun a => if a = 2 then some 1 else if a = 3 then some 2 else none

/-- Memory for the swap scenario. -/
def demoSwapMem : Mem := { parentOf := demoSwapH, freed := [] }

/-- `R.left` owning `C` in the swap scenario. -/
def demoSwapS1 : Slot :=
  { parent_ := some 1, ptr_ := some 2, deleter_ := 0,
    dyn_fields_ := none, dyn_fns_ := none }

/-- `C.left` owning `D` in the swap scenario. -/
def demoSwapS2 : Slot :=
  { parent_ := some 2, ptr_ := some 3, deleter_ := 0,
    dyn_fields_ := none, dyn_fns_ := none }

/-- A back-reference map that already contains a cycle not involving the
adoptee: `1 ↦ 2` and `2 ↦ 1`. -/
def demoLoopH : Addr → Option Addr :=
  fun a => if a = 1 then some 2 else if a = 2 then some 1 else none

/-- A foreign owning slot (no recorded parent) owning the root object `R`. -/
def demoMoveSrc : Slot :=
  { parent_ := none, ptr_ := some 1, deleter_ := 0,
    dyn_fields_ := none, dyn_fns_ := none }

/-- A non-empty slot (owning object `7`) with empty dynamic stores, for the
attribute/method scenarios. -/
def demoObjSlot : Slot :=
  { parent_ := none, ptr_ := some 7, deleter_ := 0,
    dyn_fields_ := none, dyn_fns_ := none }

/-- `demoObjSlot` after `slot["hp"] = 1`. -/
def demoAttrSlot : Slot :=
  { parent_ := none, ptr_ := some 7, deleter_ := 0,
    dyn_fields_ := some [("hp", AnyV.int 1)], dyn_fns_ := none }

/-- `R.left` owning `C`, with an attribute `"hp" = 1` already stored. -/
def demoC7Slot : Slot :=
  { parent_ := some 1, ptr_ := some 2, deleter_ := 0,
    dyn_fields_ := some [("hp", AnyV.int 1)], dyn_fns_ := none }

/-- An empty slot recorded under parent `R` (`R.right`). -/
def demoNewSlot : Slot :=
  { parent_ := some 1, ptr_ := none, deleter_ := 0,
    dyn_fields_ := none, dyn_fns_ := none }

/-- A foreign owning slot (no recorded parent) owning a fresh node `3`. -/
def demoMoveSrc2 : Slot :=
  { parent_ := none, ptr_ := some 3, deleter_ := 0,
    dyn_fields_ := none, dyn_fns_ := none }

/-- The empty memory. -/
def emptyMem : Mem := { parentOf := fun _ => none, freed := [] }

/-! ### Chain lemmas -/

theorem iterCh_none (h : Addr → Option Addr) (n : Nat) :
    iterCh h none n = none := by
  cases n <;> rfl

theorem iterCh_zero (h : Addr → Option Addr) (s : Option Addr) :
    iterCh h s 0 = s := by
  cases s <;> rfl

theorem iterCh_succ_some (h : Addr → Option Addr) (a : Addr) (n : Nat) :
    iterCh h (some a) (n + 1) = iterCh h (h a) n := rfl

theorem iterCh_one (h : Addr → Option Addr) (a : Addr) :
    iterCh h (some a) 1 = h a := by
  rw [iterCh_succ_some, iterCh_zero]

theorem iterCh_add (h : Addr → Option Addr) (n k : Nat) (s : Option Addr) :
    iterCh h s (n + k) = iterCh h (iterCh h s n) k := by
  induction n generalizing s with
  | zero => simp [iterCh]
  | succ n ih =>
    cases s with
    | none => simp [iterCh_none]
    | some a =>
      have hs : n + 1 + k = (n + k) + 1 := by omega
      rw [hs]
      show iterCh h (h a) (n + k) = iterCh h (iterCh h (some a) (n + 1)) k
      rw [ih]
      rfl

theorem iterCh_congr {h h' : Addr → Option Addr} (heq : ∀ x, h x = h' x) :
    ∀ (n : Nat) (s : Option Addr), iterCh h s n = iterCh h' s n := by
  intro n
  induction n with
  | zero => intro s; rw [iterCh_zero, iterCh_zero]
  | succ n ih =>
    intro s
    cases s with
    | none => rfl
    | some a =>
      rw [iterCh_succ_some, iterCh_succ_some]
      rw [heq a]
      exact ih (h' a)

theorem iterCh_agree (h h' : Addr → Option Addr) (a : Addr)
    (hag : ∀ x, x ≠ a → h' x = h x) :
    ∀ (n : Nat) (s : Option Addr),
      (∀ i, i < n → iterCh h' s i ≠ some a) →
      iterCh h' s n = iterCh h s n := by
  intro n
  induction n with
  | zero => intro s _; rw [iterCh_zero, iterCh_zero]
  | succ n ih =>
    intro s havoid
    cases s with
    | none => rfl
    | some x =>
      have hx : x ≠ a := by
        intro hxa
        exact havoid 0 (Nat.succ_pos n) (by rw [iterCh_zero, hxa])
      have hstep : h' x = h x := hag x hx
      rw [iterCh_succ_some, iterCh_succ_some, hstep]
      refine ih (h x) (fun i hi hhit => havoid (i + 1) (by omega) ?_)
      rw [iterCh_succ_some, hstep]
      exact hhit

theorem iterCh_none_after {h : Addr → Option Addr} {s : Option Addr}
    {k : Nat} (hk : iterCh h s k = none) (j : Nat) :
    iterCh h s (k + j) = none := by
  rw [iterCh_add, hk, iterCh_none]

theorem acyclic_of_dies {h : Addr → Option Addr}
    (hd : ∀ a, ∃ k, iterCh h (some a) k = none) : Acyclic h := by
  intro a n hcyc
  obtain ⟨k, hk⟩ := hd a
  have hrep : ∀ m, iterCh h (some a) (m * (n + 1)) = some a := by
    intro m
    induction m with
    | zero => rw [Nat.zero_mul, iterCh_zero]
    | succ m ih =>
      have hm : (m + 1) * (n + 1) = m * (n + 1) + (n + 1) := by ring
      rw [hm, iterCh_add, ih, hcyc]
  have h1 : iterCh h (some a) (k * (n + 1)) = some a := hrep k
  have h2 : iterCh h (some a) (k + k * n) = none := iterCh_none_after hk (k * n)
  have hm2 : k * (n + 1) = k + k * n := by ring
  rw [hm2, h2] at h1
  exact Option.noConfusion h1

theorem acyclic_congr (h h' : Addr → Option Addr)
    (heq : ∀ x, h x = h' x) (hac : Acyclic h) : Acyclic h' := by
  intro a n hcyc
  exact hac a n (by rw [iterCh_congr heq]; exact hcyc)

theorem acyclic_setP_none {h : Addr → Option Addr} {a : Addr}
    (hac : Acyclic h) : Acyclic (setP h a none) := by
  intro x n hcyc
  by_cases hhit : ∃ i, i < n + 1 ∧ iterCh (setP h a none) (some x) i = some a
  · obtain ⟨i, hi, hieq⟩ := hhit
    have hstep : iterCh (setP h a none) (some x) (i + 1) = none := by
      rw [iterCh_add, hieq, iterCh_one]
      simp [setP]
    have hall : iterCh (setP h a none) (some x) (n + 1) = none := by
      have hsplit : n + 1 = (i + 1) + (n - i) := by omega
      rw [hsplit]
      exact iterCh_none_after hstep (n - i)
    rw [hcyc] at hall
    exact Option.noConfusion hall
  · push_neg at hhit
    have htr := iterCh_agree h (setP h a none) a
      (fun y hy => by simp [setP, hy]) (n + 1) (some x)
      (fun i hi => hhit i hi)
    rw [htr] at hcyc
    exact hac x n hcyc

theorem reachO_setP_none {h : Addr → Option Addr} {a : Addr}
    {s : Option Addr} {c : Addr} (hr : ReachO (setP h a none) s c) :
    ReachO h s c := by
  obtain ⟨n, hn⟩ := hr
  by_cases hhit : ∃ i, i < n ∧ iterCh (setP h a none) s i = some a
  · obtain ⟨i, hi, hieq⟩ := hhit
    have hstep : iterCh (setP h a none) s (i + 1) = none := by
      rw [iterCh_add, hieq, iterCh_one]
      simp [setP]
    have hall : iterCh (setP h a none) s n = none := by
      have hsplit : n = (i + 1) + (n - i - 1) := by omega
      rw [hsplit]
      exact iterCh_none_after hstep _
    rw [hn] at hall
    exact Option.noConfusion hall
  · push_neg at hhit
    refine ⟨n, ?_⟩
    rw [← iterCh_agree h (setP h a none) a
      (fun y hy => by simp [setP, hy]) n s hhit]
    exact hn

theorem reachO_setP_some_to {h : Addr → Option Addr} {c p : Addr}
    {s : Option Addr} :
    ∀ n, iterCh (setP h c (some p)) s n = some c → ReachO h s c := by
  intro n
  induction n using Nat.strong_induction_on with
  | _ n ih =>
    intro hn
    by_cases hhit : ∃ i, i < n ∧ iterCh (setP h c (some p)) s i = some c
    · obtain ⟨i, hi, hieq⟩ := hhit
      exact ih i hi hieq
    · push_neg at hhit
      refine ⟨n, ?_⟩
      rw [← iterCh_agree h (setP h c (some p)) c
        (fun y hy => by simp [setP, hy]) n s hhit]
      exact hn

theorem acyclic_setP_some {h : Addr → Option Addr} {c p : Addr}
    (hac : Acyclic h) (hnr : ¬ ReachO h (some p) c) :
    Acyclic (setP h c (some p)) := by
  intro a n hcyc
  by_cases hhit : ∃ i, i < n + 1 ∧ iterCh (setP h c (some p)) (some a) i = some c
  · obtain ⟨i, hi, hieq⟩ := hhit
    have hpa : iterCh (setP h c (some p)) (some p) (n - i) = some a := by
      have h1 : iterCh (setP h c (some p)) (some a) (i + (n + 1 - i)) = some a := by
        have hadd : i + (n + 1 - i) = n + 1 := by omega
        rw [hadd]
        exact hcyc
      rw [iterCh_add, hieq] at h1
      have h2 : n + 1 - i = (n - i) + 1 := by omega
      rw [h2] at h1
      have hcp : setP h c (some p) c = some p := by simp [setP]
      have h3 : iterCh (setP h c (some p)) (some c) ((n - i) + 1)
          = iterCh (setP h c (some p)) (some p) (n - i) := by
        show iterCh (setP h c (some p)) (setP h c (some p) c) (n - i) = _
        rw [hcp]
      rw [h3] at h1
      exact h1
    have hpc : iterCh (setP h c (some p)) (some p) ((n - i) + i) = some c := by
      rw [iterCh_add, hpa, hieq]
    exact hnr (reachO_setP_some_to _ hpc)
  · push_neg at hhit
    have htr := iterCh_agree h (setP h c (some p)) c
      (fun y hy => by simp [setP, hy]) (n + 1) (some a) hhit
    rw [htr] at hcyc
    exact hac a n hcyc

/-- The slot component of `adopt` is the input slot with only the owned
pointer replaced. -/
theorem adopt_snd (m : Mem) (s : Slot) (p : Option Addr) :
    (adopt m s p).2 = { s with ptr_ := p } := rfl

/-! ### Cycle-guard loop lemmas -/

theorem wcc_true_reach {h : Addr → Option Addr} {c : Addr} :
    ∀ (fuel : Nat) (s : Option Addr),
      wcc h c s fuel = some true → ReachO h s c := by
  intro fuel
  induction fuel with
  | zero => intro s hw; simp [wcc] at hw
  | succ fuel ih =>
    intro s hw
    cases s with
    | none => simp [wcc] at hw
    | some cur =>
      by_cases hc : cur = c
      · exact ⟨0, by simp [iterCh, hc]⟩
      · have hw' : wcc h c (h cur) fuel = some true := by
          simpa [wcc, hc] using hw
        obtain ⟨n, hn⟩ := ih (h cur) hw'
        exact ⟨n + 1, by simpa [iterCh] using hn⟩

theorem wcc_false_not_reach {h : Addr → Option Addr} {c : Addr} :
    ∀ (fuel : Nat) (s : Option Addr),
      wcc h c s fuel = some false → ¬ ReachO h s c := by
  intro fuel
  induction fuel with
  | zero => intro s hw; simp [wcc] at hw
  | succ fuel ih =>
    intro s hw
    cases s with
    | none =>
      rintro ⟨n, hn⟩
      rw [iterCh_none] at hn
      exact Option.noConfusion hn
    | some cur =>
      by_cases hc : cur = c
      · simp [wcc, hc] at hw
      · have hw' : wcc h c (h cur) fuel = some false := by
          simpa [wcc, hc] using hw
        rintro ⟨n, hn⟩
        cases n with
        | zero =>
          have : cur = c := by simpa [iterCh] using hn
          exact hc this
        | succ n =>
          have hn' : iterCh h (h cur) n = some c := by simpa [iterCh] using hn
          exact ih (h cur) hw' ⟨n, hn'⟩

theorem wcc_reach_true {h : Addr → Option Addr} {c : Addr} :
    ∀ (n : Nat) (s : Option Addr), iterCh h s n = some c →
      wcc h c s (n + 1) = some true := by
  intro n
  induction n with
  | zero =>
    intro s hn
    cases s with
    | none => simp [iterCh] at hn
    | some x =>
      have hx : x = c := by simpa [iterCh] using hn
      simp [wcc, hx]
  | succ n ih =>
    intro s hn
    cases s with
    | none => rw [iterCh_none] at hn; exact Option.noConfusion hn
    | some x =>
      by_cases hx : x = c
      · simp [wcc, hx]
      · have hn' : iterCh h (h x) n = some c := by simpa [iterCh] using hn
        have := ih (h x) hn'
        simpa [wcc, hx] using this

theorem wcc_dies_some {h : Addr → Option Addr} (c : Addr) :
    ∀ (k : Nat) (s : Option Addr), iterCh h s k = none →
      ∃ b, wcc h c s (k + 1) = some b := by
  intro k
  induction k with
  | zero =>
    intro s hk
    cases s with
    | none => exact ⟨false, by simp [wcc]⟩
    | some x => simp [iterCh] at hk
  | succ k ih =>
    intro s hk
    cases s with
    | none => exact ⟨false, by simp [wcc]⟩
    | some x =>
      by_cases hx : x = c
      · exact ⟨true, by simp [wcc, hx]⟩
      · have hk' : iterCh h (h x) k = none := by simpa [iterCh] using hk
        obtain ⟨b, hb⟩ := ih (h x) hk'
        exact ⟨b, by simpa [wcc, hx] using hb⟩

/-! ### Dynamic-store lemmas -/

theorem lookupAssoc_setAssoc_self {α : Type} (l : List (String × α))
    (k : String) (v : α) : lookupAssoc (setAssoc l k v) k = some v := by
  induction l with
  | nil => simp [setAssoc, lookupAssoc]
  | cons hd tl ih =>
    obtain ⟨k', v'⟩ := hd
    by_cases hk : k' = k
    · simp [setAssoc, lookupAssoc, hk]
    · simp [setAssoc, lookupAssoc, hk, ih]

theorem anyCast_inject (t : Ty) (v : t.denote) :
    anyCast t (t.inject v) = .ok v := by
  cases t <;> rfl

/-! ### Acyclicity preservation of the guarded operations -/

theorem acyclic_clearParentOnChild {m : Mem} {p : Option Addr}
    (hac : Acyclic m.parentOf) :
    Acyclic (clearParentOnChild m p).parentOf := by
  rcases p with _ | c
  · exact hac
  · exact acyclic_setP_none hac

theorem acyclic_destroyOld {m : Mem} {p : Option Addr}
    (hac : Acyclic m.parentOf) : Acyclic (destroyOld m p).parentOf := by
  rcases p with _ | old
  · exact hac
  · exact acyclic_setP_none hac

theorem reachO_destroyOld {m : Mem} {p : Option Addr} {s : Option Addr}
    {c : Addr} (hr : ReachO (destroyOld m p).parentOf s c) :
    ReachO m.parentOf s c := by
  rcases p with _ | old
  · exact hr
  · exact reachO_setP_none hr

theorem acyclic_adopt {m : Mem} {s : Slot} {p : Option Addr}
    (hac : Acyclic m.parentOf)
    (hok : ∀ pa par, p = some pa → s.parent_ = some par →
        ¬ ReachO m.parentOf (some par) pa) :
    Acyclic (adopt m s p).1.parentOf := by
  have hac1 : Acyclic (destroyOld m s.ptr_).parentOf := acyclic_destroyOld hac
  rcases p with _ | pa
  · exact hac1
  · have hgoal : (adopt m s (some pa)).1.parentOf
        = setP (destroyOld m s.ptr_).parentOf pa s.parent_ := rfl
    rcases hpar : s.parent_ with _ | par
    · rw [hgoal, hpar]
      exact acyclic_setP_none hac1
    · rw [hgoal, hpar]
      refine acyclic_setP_some hac1 ?_
      intro hr
      exact hok pa par rfl hpar (reachO_destroyOld hr)

theorem resetOp_preserves_acyclic (fuel : Nat) (m : Mem) (s : Slot)
    (p : Option Addr) (m' : Mem) (s' : Slot) (hac : Acyclic m.parentOf)
    (h : resetOp fuel m s p = some (m', s')) : Acyclic m'.parentOf := by
  rcases p with _ | pa
  · simp only [resetOp] at h
    injection h with h2
    have h3 : (adopt m s none).1 = m' := congrArg Prod.fst h2
    rw [← h3]
    exact acyclic_adopt hac (fun pa par hpe _ => absurd hpe (by simp))
  · rcases hpar : s.parent_ with _ | par
    · simp only [resetOp, hpar] at h
      injection h with h2
      have h3 : (adopt m s (some pa)).1 = m' := congrArg Prod.fst h2
      rw [← h3]
      refine acyclic_adopt hac ?_
      intro pa' par' _ hpar'
      rw [hpar] at hpar'
      exact Option.noConfusion hpar'
    · rcases hw : wcc m.parentOf pa (some par) fuel with _ | b
      · simp [resetOp, hpar, hw] at h
      · cases b
        · simp only [resetOp, hpar, hw] at h
          injection h with h2
          have h3 : (adopt m s (some pa)).1 = m' := congrArg Prod.fst h2
          rw [← h3]
          refine acyclic_adopt hac ?_
          intro pa' par' hpe hpar'
          injection hpe with hpe2
          rw [hpar] at hpar'
          injection hpar' with hpar2
          subst hpe2
          subst hpar2
          exact wcc_false_not_reach fuel (some par) hw
        · simp only [resetOp, hpar, hw] at h
          injection h with h2
          have h3 : m = m' := congrArg Prod.fst h2
          rw [← h3]
          exact hac

theorem moveAssignOp_preserves_acyclic (fuel : Nat) (m : Mem)
    (dst src : Slot) (m' : Mem) (d' s' : Slot) (hac : Acyclic m.parentOf)
    (h : moveAssignOp fuel m dst src = some (m', d', s')) :
    Acyclic m'.parentOf := by
  have hac1 : Acyclic (clearParentOnChild m src.ptr_).parentOf :=
    acyclic_clearParentOnChild hac
  unfold moveAssignOp at h
  rcases hr : resetOp fuel (clearParentOnChild m src.ptr_) dst src.ptr_
      with _ | pr
  · rw [hr] at h
    exact absurd h (by simp)
  · obtain ⟨m2, dst1⟩ := pr
    rw [hr] at h
    injection h with h2
    have h3 : m2 = m' := congrArg Prod.fst h2
    rw [← h3]
    exact resetOp_preserves_acyclic fuel _ dst src.ptr_ m2 dst1 hac1 hr

theorem moveCtorOp_preserves_acyclic (m : Mem) (s : Slot)
    (hac : Acyclic m.parentOf)
    (hcoh : ∀ c, s.ptr_ = some c → m.parentOf c = s.parent_) :
    Acyclic (moveCtorOp m s).1.parentOf := by
  have heq : (moveCtorOp m s).1.parentOf
      = (setParentOnChild (clearParentOnChild m s.ptr_) s.ptr_
          s.parent_).parentOf := rfl
  rcases hp : s.ptr_ with _ | c
  · rw [heq, hp]
    exact hac
  · rw [heq, hp]
    refine acyclic_congr m.parentOf _ ?_ hac
    intro x
    simp only [setParentOnChild, clearParentOnChild, setP]
    by_cases hx : x = c
    · subst hx
      rw [if_pos rfl]
      exact hcoh _ hp
    · rw [if_neg hx, if_neg hx]

/-! ### Facts about the concrete scenario states -/

theorem demoCycleH_acyclic : Acyclic demoCycleH := by
  apply acyclic_of_dies
  intro a
  by_cases h2 : a = 2
  · exact ⟨3, by subst h2; decide⟩
  · refine ⟨3, ?_⟩
    have ha : demoCycleH a = none := by simp [demoCycleH, h2]
    rw [show (3 : Nat) = 2 + 1 from rfl, iterCh_succ_some, ha, iterCh_none]

theorem demoSwapH_acyclic : Acyclic demoSwapH := by
  apply acyclic_of_dies
  intro a
  by_cases h2 : a = 2
  · exact ⟨4, by subst h2; decide⟩
  · by_cases h3 : a = 3
    · exact ⟨4, by subst h3; decide⟩
    · refine ⟨4, ?_⟩
      have ha : demoSwapH a = none := by simp [demoSwapH, h2, h3]
      rw [show (4 : Nat) = 3 + 1 from rfl, iterCh_succ_some, ha, iterCh_none]

theorem wcc_demoLoopH_diverges (fuel : Nat) :
    wcc demoLoopH 3 (some 1) fuel = none ∧
    wcc demoLoopH 3 (some 2) fuel = none := by
  induction fuel with
  | zero => exact ⟨rfl, rfl⟩
  | succ fuel ih =>
    constructor
    · have hstep : wcc demoLoopH 3 (some 1) (fuel + 1)
          = wcc demoLoopH 3 (some 2) fuel := by
        simp [wcc, demoLoopH]
      rw [hstep]
      exact ih.2
    · have hstep : wcc demoLoopH 3 (some 2) (fuel + 1)
          = wcc demoLoopH 3 (some 1) fuel := by
        simp [wcc, demoLoopH]
      rw [hstep]
      exact ih.1

/-! ### Claim theorems -/

/-- C1: for every slot with a recorded parent and every candidate value
whose adoption the cycle guard refuses (the guard loop returns `true`),
`reset` is a silent no-op: memory (back-references and the freed log) and
the slot (owned value, parent, deleter, dynamic stores) are all left exactly
as they were, and no error is signaled (the call returns normally). -/
theorem c1_cycle_refusal_reset_noop (fuel : Nat) (m : Mem) (s : Slot)
    (pa par : Addr) (hpar : s.parent_ = some par)
    (hcyc : wcc m.parentOf pa (some par) fuel = some true) :
    resetOp fuel m s (some pa) = some (m, s) := by
  simp [resetOp, hpar, hcyc]

/-- C1 witness, the spec's scenario: root `R` (address 1) owns child `C`
(address 2) through `R.left`; making `C` adopt `R` through `C.left` is
refused (the guard sees the cycle), `C.left` stays empty (falsy) and `R`'s
ownership of `C` is unaffected. -/
theorem c1_cycle_refusal_reset_noop_witness :
    wcc demoCycleMem.parentOf 1 (some 2) 5 = some true ∧
    resetOp 5 demoCycleMem demoCSlot (some 1) = some (demoCycleMem, demoCSlot) ∧
    demoCSlot.ptr_ = none ∧ demoRLeft.ptr_ = some 2 ∧
    demoCycleMem.parentOf 2 = some 1 := by
  refine ⟨by decide, ?_, rfl, rfl, by decide⟩
  exact c1_cycle_refusal_reset_noop 5 demoCycleMem demoCSlot 1 2 rfl (by decide)

/-- C5: `release()` on a slot owning a value detaches the value without
destroying it (the freed log is untouched), clears the detached value's
back-reference, returns the raw value to the caller, and leaves the slot
empty with both dynamic stores still attached to the slot. -/
theorem c5_release_detaches_without_destroying (m : Mem) (s : Slot)
    (c : Addr) (hp : s.ptr_ = some c) :
    (releaseOp m s).2.2 = some c ∧
    (releaseOp m s).2.1.ptr_ = none ∧
    (releaseOp m s).1.parentOf c = none ∧
    (releaseOp m s).1.freed = m.freed ∧
    (releaseOp m s).2.1.dyn_fields_ = s.dyn_fields_ ∧
    (releaseOp m s).2.1.dyn_fns_ = s.dyn_fns_ := by
  simp [releaseOp, clearParentOnChild, setParentOnChild, hp, setP]

/-- C5 witness: releasing `C` from `R.left`. -/
theorem c5_release_witness :
    (releaseOp demoCycleMem demoRLeft).2.2 = some 2 ∧
    (releaseOp demoCycleMem demoRLeft).2.1.ptr_ = none ∧
    (releaseOp demoCycleMem demoRLeft).1.parentOf 2 = none ∧
    (releaseOp demoCycleMem demoRLeft).1.freed = demoCycleMem.freed ∧
    (releaseOp demoCycleMem demoRLeft).2.1.dyn_fields_ = demoRLeft.dyn_fields_ ∧
    (releaseOp demoCycleMem demoRLeft).2.1.dyn_fns_ = demoRLeft.dyn_fns_ :=
  c5_release_detaches_without_destroying demoCycleMem demoRLeft 2 rfl

/-- C7: any terminating `reset` — refused or adopting, to a new value or to
null — leaves both dynamic stores of the slot unchanged: every attribute
entry and every method entry present before is present, with the same
contents, afterwards.  The stores are attached to the slot, not the value. -/
theorem c7_reset_keeps_dynamic_stores (fuel : Nat) (m : Mem) (s : Slot)
    (p : Option Addr) (m' : Mem) (s' : Slot)
    (h : resetOp fuel m s p = some (m', s')) :
    s'.dyn_fields_ = s.dyn_fields_ ∧ s'.dyn_fns_ = s.dyn_fns_ ∧
    (∀ k v, fieldLookup s k = some v → fieldLookup s' k = some v) ∧
    (∀ k f, fnLookup s k = some f → fnLookup s' k = some f) := by
  have hshape : s' = s ∨ s' = { s with ptr_ := p } := by
    rcases p with _ | pa
    · right
      simp only [resetOp] at h
      injection h with h2
      have h3 := congrArg Prod.snd h2
      rw [adopt_snd] at h3
      exact h3.symm
    · rcases hpar : s.parent_ with _ | par
      · right
        simp only [resetOp, hpar] at h
        injection h with h2
        have h3 := congrArg Prod.snd h2
        rw [adopt_snd] at h3
        rw [hpar] at h3
        exact h3.symm
      · rcases hw : wcc m.parentOf pa (some par) fuel with _ | b
        · simp [resetOp, hpar, hw] at h
        · cases b
          · right
            simp only [resetOp, hpar, hw] at h
            injection h with h2
            have h3 := congrArg Prod.snd h2
            rw [adopt_snd] at h3
            rw [hpar] at h3
            exact h3.symm
          · left
            simp only [resetOp, hpar, hw] at h
            injection h with h2
            exact (congrArg Prod.snd h2).symm
  have hf : s'.dyn_fields_ = s.dyn_fields_ ∧ s'.dyn_fns_ = s.dyn_fns_ := by
    rcases hshape with hs | hs <;> rw [hs] <;> exact ⟨rfl, rfl⟩
  refine ⟨hf.1, hf.2, ?_, ?_⟩
  · intro k v hv
    unfold fieldLookup at hv ⊢
    rw [hf.1]
    exact hv
  · intro k f hfn
    unfold fnLookup at hfn ⊢
    rw [hf.2]
    exact hfn

/-- C7 witness: resetting `R.left` from `C` to a fresh node `5` keeps the
attribute store attached to the slot. -/
theorem c7_reset_keeps_dynamic_stores_witness :
    (∃ m' s', resetOp 5 demoCycleMem demoC7Slot (some 5) = some (m', s') ∧
      s'.dyn_fields_ = some [("hp", AnyV.int 1)] ∧ s'.dyn_fns_ = none) := by
  have happ := c7_reset_keeps_dynamic_stores 5 demoCycleMem demoC7Slot (some 5)
      (adopt demoCycleMem demoC7Slot (some 5)).1
      (adopt demoCycleMem demoC7Slot (some 5)).2 rfl
  exact ⟨_, _, rfl, happ.1, happ.2.1⟩

/-- C10: `equals` returns true when both slots are empty and false when
exactly one is empty, whatever equality capability the owned type's probe
selected (`eqFn` ranges over all of them); the selected capability is
consulted exactly when both slots own a value. -/
theorem c10_equals_empty_cases (eqFn : Addr → Addr → Bool)
    (p1 p2 : Option Addr) (d1 d2 : Nat)
    (f1 f2 : Option (List (String × AnyV)))
    (g1 g2 : Option (List (String × DynFn))) (a b : Addr) :
    equalsOp eqFn ⟨p1, none, d1, f1, g1⟩ ⟨p2, none, d2, f2, g2⟩ = true ∧
    equalsOp eqFn ⟨p1, some a, d1, f1, g1⟩ ⟨p2, none, d2, f2, g2⟩ = false ∧
    equalsOp eqFn ⟨p1, none, d1, f1, g1⟩ ⟨p2, some b, d2, f2, g2⟩ = false ∧
    equalsOp eqFn ⟨p1, some a, d1, f1, g1⟩ ⟨p2, some b, d2, f2, g2⟩ = eqFn a b :=
  ⟨rfl, rfl, rfl, rfl⟩

/-- C2 (amended): starting from acyclic back-reference states, every
ownership transfer that runs the cycle guard preserves acyclicity —
`reset` (hence construction-with-adoption, `emplace` and assignment from a
foreign `std::unique_ptr`), and move assignment; move construction
preserves it as well provided the source slot's back-reference is coherent
(its owned value's back-reference equals its recorded parent).  `swap`,
which runs no guard, is excluded: see the counterexample. -/
theorem c2_acyclicity_of_guarded_transfers :
    (∀ fuel m s p m' s', Acyclic m.parentOf →
        resetOp fuel m s p = some (m', s') → Acyclic m'.parentOf) ∧
    (∀ fuel m dst src m' d' s', Acyclic m.parentOf →
        moveAssignOp fuel m dst src = some (m', d', s') →
        Acyclic m'.parentOf) ∧
    (∀ m s, Acyclic m.parentOf →
        (∀ c, s.ptr_ = some c → m.parentOf c = s.parent_) →
        Acyclic (moveCtorOp m s).1.parentOf) :=
  ⟨fun fuel m s p m' s' hac h =>
      resetOp_preserves_acyclic fuel m s p m' s' hac h,
   fun fuel m dst src m' d' s' hac h =>
      moveAssignOp_preserves_acyclic fuel m dst src m' d' s' hac h,
   fun m s hac hcoh => moveCtorOp_preserves_acyclic m s hac hcoh⟩

/-- C2 witness: adopting a fresh node `3` into `R.right` from the acyclic
scenario state keeps the state acyclic. -/
theorem c2_acyclicity_of_guarded_transfers_witness :
    Acyclic (adopt demoCycleMem demoNewSlot (some 3)).1.parentOf :=
  c2_acyclicity_of_guarded_transfers.1 5 demoCycleMem demoNewSlot (some 3)
    (adopt demoCycleMem demoNewSlot (some 3)).1
    (adopt demoCycleMem demoNewSlot (some 3)).2 demoCycleH_acyclic rfl

/-- C2 counterexample: `swap` runs no cycle guard, so acyclicity is not an
invariant of every ownership-transfer operation.  From the acyclic,
fully coherent state where `R.left` owns `C` and `C.left` owns `D`,
swapping `R.left` with `C.left` makes `C.left` own `C` itself: `C`'s
back-reference chain then contains `C` (its back-reference becomes `C`). -/
theorem c2_counterexample_swap_creates_cycle :
    Acyclic demoSwapMem.parentOf ∧
    ¬ Acyclic (swapOp demoSwapMem demoSwapS1 demoSwapS2).1.parentOf := by
  refine ⟨demoSwapH_acyclic, ?_⟩
  intro hac
  exact hac 2 0 (by decide)

/-- C3 (amended): the guard walk starting at candidate owner `P` visits
`P`, then `P`'s back-reference target, and so on; whenever it terminates it
refuses exactly when the adoptee `C` appears in that walk; it terminates
whenever `C` is reachable from `P`, and whenever the chain from `P` reaches
an empty reference.  (It does not terminate on a chain that already
contains a cycle avoiding `C`: see the counterexample.) -/
theorem c3_guard_walk_behavior :
    (∀ (h : Addr → Option Addr) (c p : Addr) (fuel : Nat) (b : Bool),
        wcc h c (some p) fuel = some b → (b = true ↔ ReachO h (some p) c)) ∧
    (∀ (h : Addr → Option Addr) (c p : Addr),
        ReachO h (some p) c → ∃ fuel, wcc h c (some p) fuel = some true) ∧
    (∀ (h : Addr → Option Addr) (c p : Addr) (k : Nat),
        iterCh h (some p) k = none →
        ∃ fuel b, wcc h c (some p) fuel = some b) := by
  refine ⟨?_, ?_, ?_⟩
  · intro h c p fuel b hw
    cases b
    · exact iff_of_false (by simp) (wcc_false_not_reach fuel (some p) hw)
    · exact iff_of_true rfl (wcc_true_reach fuel (some p) hw)
  · rintro h c p ⟨n, hn⟩
    exact ⟨n + 1, wcc_reach_true n (some p) hn⟩
  · intro h c p k hk
    obtain ⟨b, hb⟩ := wcc_dies_some c k (some p) hk
    exact ⟨k + 1, b, hb⟩

/-- C3 witness: on the scenario chain (`1`'s back-reference is empty) the
guard walk for adoptee `5` terminates. -/
theorem c3_guard_walk_behavior_witness :
    ∃ fuel b, wcc demoCycleH 5 (some 1) fuel = some b :=
  c3_guard_walk_behavior.2.2 demoCycleH 5 1 1 (by decide)

/-- C3 counterexample: the claim says the walk terminates on every input
chain, including chains that already contain a cycle.  On the concrete map
with `1 ↦ 2 ↦ 1` (a pre-existing cycle) and adoptee `3`, the loop — which
carries no visited set — never terminates: no amount of fuel yields a
result. -/
theorem c3_counterexample_guard_diverges_on_cycle :
    (∃ n, iterCh demoLoopH (some 1) (n + 1) = some 1) ∧
    ¬ ∃ fuel b, wcc demoLoopH 3 (some 1) fuel = some b := by
  constructor
  · exact ⟨1, by decide⟩
  · rintro ⟨fuel, b, hb⟩
    rw [(wcc_demoLoopH_diverges fuel).1] at hb
    exact Option.noConfusion hb

/-- C4 (amended): move construction unconditionally transfers: the source
becomes empty, the destination owns the original value with its
back-reference recomputed to the destination's recorded parent (copied from
the source), and both dynamic stores move over (the freed log is untouched —
nothing is destroyed).  Move assignment, which funnels the adoption through
`reset`, behaves the same whenever the cycle guard does not refuse the
adoption under the destination's recorded parent. -/
theorem c4_move_transfers_ownership :
    (∀ m s c, s.ptr_ = some c →
        (moveCtorOp m s).2.2.ptr_ = none ∧
        (moveCtorOp m s).2.1.ptr_ = some c ∧
        (moveCtorOp m s).2.1.parent_ = s.parent_ ∧
        (moveCtorOp m s).1.parentOf c = (moveCtorOp m s).2.1.parent_ ∧
        (moveCtorOp m s).2.1.dyn_fields_ = s.dyn_fields_ ∧
        (moveCtorOp m s).2.1.dyn_fns_ = s.dyn_fns_ ∧
        (moveCtorOp m s).2.2.dyn_fields_ = none ∧
        (moveCtorOp m s).2.2.dyn_fns_ = none ∧
        (moveCtorOp m s).1.freed = m.freed) ∧
    (∀ fuel m dst src c, src.ptr_ = some c →
        (dst.parent_ = none ∨
         ∃ par, dst.parent_ = some par ∧
           wcc (clearParentOnChild m (some c)).parentOf c (some par) fuel
             = some false) →
        ∃ m' d' s', moveAssignOp fuel m dst src = some (m', d', s') ∧
          d'.ptr_ = some c ∧ d'.parent_ = dst.parent_ ∧
          m'.parentOf c = dst.parent_ ∧
          d'.deleter_ = src.deleter_ ∧
          d'.dyn_fields_ = src.dyn_fields_ ∧ d'.dyn_fns_ = src.dyn_fns_ ∧
          s'.ptr_ = none ∧ s'.dyn_fields_ = none ∧ s'.dyn_fns_ = none) := by
  constructor
  · intro m s c hs
    refine ⟨rfl, hs, rfl, ?_, rfl, rfl, rfl, rfl, ?_⟩
    · have heq : (moveCtorOp m s).1
          = setParentOnChild (clearParentOnChild m s.ptr_) s.ptr_ s.parent_ :=
        rfl
      rw [heq, hs]
      simp only [setParentOnChild, setP, if_pos rfl]
      rfl
    · have heq : (moveCtorOp m s).1
          = setParentOnChild (clearParentOnChild m s.ptr_) s.ptr_ s.parent_ :=
        rfl
      rw [heq, hs]
      simp [setParentOnChild, clearParentOnChild, setP]
  · intro fuel m dst src c hsrc hguard
    have hreset : resetOp fuel (clearParentOnChild m (some c)) dst (some c)
        = some (adopt (clearParentOnChild m (some c)) dst (some c)) := by
      rcases hguard with hnone | ⟨par, hpar, hw⟩
      · simp [resetOp, hnone]
      · simp [resetOp, hpar, hw]
    have hma : moveAssignOp fuel m dst src
        = some (moveAssignFinish
            (adopt (clearParentOnChild m (some c)) dst (some c)) src) := by
      unfold moveAssignOp
      rw [hsrc, hreset]
    refine ⟨_, _, _, hma, rfl, rfl, ?_, rfl, rfl, rfl, rfl, rfl, rfl⟩
    have heq : (adopt (clearParentOnChild m (some c)) dst (some c)).1
        = setParentOnChild (destroyOld (clearParentOnChild m (some c))
            dst.ptr_) (some c) dst.parent_ := rfl
    rw [heq]
    simp [setParentOnChild, setP]

/-- C4 witness: moving `R.left` (owner of `C`) by construction, and
move-assigning a foreign slot owning fresh node `3` into `R.right`. -/
theorem c4_move_transfers_ownership_witness :
    ((moveCtorOp demoCycleMem demoRLeft).2.2.ptr_ = none ∧
     (moveCtorOp demoCycleMem demoRLeft).2.1.ptr_ = some 2 ∧
     (moveCtorOp demoCycleMem demoRLeft).2.1.parent_ = demoRLeft.parent_ ∧
     (moveCtorOp demoCycleMem demoRLeft).1.parentOf 2
        = (moveCtorOp demoCycleMem demoRLeft).2.1.parent_ ∧
     (moveCtorOp demoCycleMem demoRLeft).2.1.dyn_fields_
        = demoRLeft.dyn_fields_ ∧
     (moveCtorOp demoCycleMem demoRLeft).2.1.dyn_fns_ = demoRLeft.dyn_fns_ ∧
     (moveCtorOp demoCycleMem demoRLeft).2.2.dyn_fields_ = none ∧
     (moveCtorOp demoCycleMem demoRLeft).2.2.dyn_fns_ = none ∧
     (moveCtorOp demoCycleMem demoRLeft).1.freed = demoCycleMem.freed) ∧
    (∃ m' d' s',
        moveAssignOp 5 demoCycleMem demoNewSlot demoMoveSrc2
          = some (m', d', s') ∧
        d'.ptr_ = some 3 ∧ d'.parent_ = demoNewSlot.parent_ ∧
        m'.parentOf 3 = demoNewSlot.parent_ ∧
        d'.deleter_ = demoMoveSrc2.deleter_ ∧
        d'.dyn_fields_ = demoMoveSrc2.dyn_fields_ ∧
        d'.dyn_fns_ = demoMoveSrc2.dyn_fns_ ∧
        s'.ptr_ = none ∧ s'.dyn_fields_ = none ∧ s'.dyn_fns_ = none) :=
  ⟨c4_move_transfers_ownership.1 demoCycleMem demoRLeft 2 rfl,
   c4_move_transfers_ownership.2 5 demoCycleMem demoNewSlot demoMoveSrc2 3
     rfl (Or.inr ⟨1, rfl, by decide⟩)⟩

/-- C4 counterexample: move assignment does not always leave the
destination owning the moved value.  `demoCSlot` is `C.left` (recorded
parent `C`, where `C`'s back-reference is `R`); move-assigning a foreign
slot that owns `R` makes the internal `reset` refuse (adopting `R` under
`C` closes a cycle), so the destination slot ends up empty — not owning the
original value — and the value is dropped, while the source is emptied. -/
theorem c4_counterexample_move_assign_refused :
    demoMoveSrc.ptr_ = some 1 ∧
    (moveAssignOp 5 demoCycleMem demoCSlot demoMoveSrc).map
        (fun r => (r.2.1.ptr_, r.2.2.ptr_)) = some (none, none) :=
  ⟨rfl, by decide⟩

/-- C6: `swap` exchanges owned value, deleter, attribute store and method
registry between two slots (each slot keeps its own recorded parent), and
afterwards each owned value's back-reference equals the recorded parent of
the slot that now owns it.  The two slots are assumed not to own the same
value (the unique-ownership invariant). -/
theorem c6_swap_exchanges (m : Mem) (s1 s2 : Slot)
    (hdisj : ∀ c : Addr, ¬ (s1.ptr_ = some c ∧ s2.ptr_ = some c)) :
    (swapOp m s1 s2).2.1.ptr_ = s2.ptr_ ∧
    (swapOp m s1 s2).2.2.ptr_ = s1.ptr_ ∧
    (swapOp m s1 s2).2.1.deleter_ = s2.deleter_ ∧
    (swapOp m s1 s2).2.2.deleter_ = s1.deleter_ ∧
    (swapOp m s1 s2).2.1.dyn_fields_ = s2.dyn_fields_ ∧
    (swapOp m s1 s2).2.2.dyn_fields_ = s1.dyn_fields_ ∧
    (swapOp m s1 s2).2.1.dyn_fns_ = s2.dyn_fns_ ∧
    (swapOp m s1 s2).2.2.dyn_fns_ = s1.dyn_fns_ ∧
    (swapOp m s1 s2).2.1.parent_ = s1.parent_ ∧
    (swapOp m s1 s2).2.2.parent_ = s2.parent_ ∧
    (∀ c, (swapOp m s1 s2).2.1.ptr_ = some c →
        (swapOp m s1 s2).1.parentOf c = s1.parent_) ∧
    (∀ c, (swapOp m s1 s2).2.2.ptr_ = some c →
        (swapOp m s1 s2).1.parentOf c = s2.parent_) := by
  refine ⟨rfl, rfl, rfl, rfl, rfl, rfl, rfl, rfl, rfl, rfl, ?_, ?_⟩
  · intro c hc
    have hc2 : s2.ptr_ = some c := hc
    rcases h1 : s1.ptr_ with _ | c1
    · simp [swapOp, h1, hc2, setParentOnChild, setP]
    · have hne : c1 ≠ c := fun he => hdisj c ⟨he ▸ h1, hc2⟩
      simp [swapOp, h1, hc2, setParentOnChild, setP, Ne.symm hne]
  · intro c hc
    have hc1 : s1.ptr_ = some c := hc
    rcases h2 : s2.ptr_ with _ | c2
    · simp [swapOp, h2, hc1, setParentOnChild, setP]
    · simp [swapOp, h2, hc1, setParentOnChild, setP]

/-- C6 witness: swapping `R.left` (owner of `C`) with `C.left` (owner of
`D`) exchanges the owned values and recomputes both back-references. -/
theorem c6_swap_exchanges_witness :
    (swapOp demoSwapMem demoSwapS1 demoSwapS2).2.1.ptr_ = some 3 ∧
    (swapOp demoSwapMem demoSwapS1 demoSwapS2).2.2.ptr_ = some 2 ∧
    (swapOp demoSwapMem demoSwapS1 demoSwapS2).1.parentOf 3
        = demoSwapS1.parent_ ∧
    (swapOp demoSwapMem demoSwapS1 demoSwapS2).1.parentOf 2
        = demoSwapS2.parent_ := by
  have happ := c6_swap_exchanges demoSwapMem demoSwapS1 demoSwapS2
    (fun c hc => by
      have ha : some 2 = some c := hc.1
      have hb : some 3 = some c := hc.2
      injection ha with ha2
      injection hb with hb2
      subst ha2
      exact absurd hb2 (by decide))
  exact ⟨happ.1, happ.2.1,
    happ.2.2.2.2.2.2.2.2.2.2.1 3 rfl,
    happ.2.2.2.2.2.2.2.2.2.2.2 2 rfl⟩

/-- C8: on a non-empty slot, after `def<R,A,B>(name, f)`, the typed call
`call<R>(name, a, b)` returns `f(a, b)`; calling an undefined name faults;
calling with an argument count different from the declared arity (two)
faults.  (`operator()` and `call` are `const`: they take the slot by
constant reference, so the slot's state is unchanged by construction —
faults included.) -/
theorem c8_method_round_trip (s : Slot) (c : Addr) (hptr : s.ptr_ = some c)
    (A B R : Ty) (f : A.denote → B.denote → R.denote) (a : A.denote)
    (b : B.denote) (name : String) :
    callTyped R (defOp2 s name A B R f) name [A.inject a, B.inject b]
        = .ok (f a b) ∧
    (∀ nm, fnLookup (defOp2 s name A B R f) nm = none →
        ∀ args, isFault (callAny (defOp2 s name A B R f) nm args) = true) ∧
    (∀ args, args.length ≠ 2 →
        isFault (callTyped R (defOp2 s name A B R f) name args) = true) := by
  refine ⟨?_, ?_, ?_⟩
  · simp only [callTyped, callAny, defOp2, hptr]
    rw [lookupAssoc_setAssoc_self]
    simp [callFnFromAnys2, anyCast_inject, Except.bind]
  · intro nm hnm args
    simp only [fnLookup, defOp2] at hnm
    simp only [callAny, defOp2, hptr]
    rw [hnm]
    rfl
  · intro args hlen
    simp only [callTyped, callAny, defOp2, hptr]
    rw [lookupAssoc_setAssoc_self]
    simp [callFnFromAnys2, hlen, isFault, Except.bind]

/-- C8 witness: defining a binary integer addition `"add"` and calling it
with `(10, 20)` yields `30`; calling it with one argument faults. -/
theorem c8_method_round_trip_witness :
    callTyped .tint
        (defOp2 demoObjSlot "add" .tint .tint .tint (fun x y => x + y))
        "add" [AnyV.int 10, AnyV.int 20] = .ok 30 ∧
    isFault (callTyped .tint
        (defOp2 demoObjSlot "add" .tint .tint .tint (fun x y => x + y))
        "add" [AnyV.int 10]) = true := by
  have happ := c8_method_round_trip demoObjSlot 7 rfl .tint .tint .tint
    (fun x y => x + y) 10 20 "add"
  exact ⟨happ.1, happ.2.2 [AnyV.int 10] (by decide)⟩

/-- C9 (amended): on a non-empty slot, `exists(K)` is false whenever no
entry is stored under `K` (in particular on a fresh slot); after
`set(K, V)` — which overwrites any prior entry under `K` — `exists(K)` is
true and the typed read `get` of `K` at `V`'s type returns `V`. -/
theorem c9_attribute_round_trip (s : Slot) (c : Addr)
    (hptr : s.ptr_ = some c) (k : String) (t : Ty) (v : t.denote) :
    (fieldLookup s k = none → attrExists s k = .ok false) ∧
    (∃ s', attrSet s k (t.inject v) = .ok s' ∧
        attrExists s' k = .ok true ∧ attrGet t s' k = .ok v) := by
  constructor
  · intro hnone
    simp only [fieldLookup] at hnone
    simp only [attrExists, hptr]
    rcases hf : s.dyn_fields_ with _ | l
    · rfl
    · rw [hf] at hnone
      have hnone2 : lookupAssoc l k = none := hnone
      show Except.ok ((lookupAssoc l k).isSome) = Except.ok false
      rw [hnone2]
      rfl
  · refine ⟨{ s with dyn_fields_ := some (setAssoc (s.dyn_fields_.getD []) k (t.inject v)) }, ?_, ?_, ?_⟩
    · simp only [attrSet, hptr]
    · simp only [attrExists, hptr]
      show Except.ok ((lookupAssoc (setAssoc (s.dyn_fields_.getD []) k (t.inject v)) k).isSome) = Except.ok true
      rw [lookupAssoc_setAssoc_self]
      rfl
    · simp only [attrGet, hptr]
      show (match lookupAssoc (setAssoc (s.dyn_fields_.getD []) k (t.inject v)) k with
        | none => Except.error ("field_proxy: key not found: " ++ k)
        | some w => anyCast t w) = Except.ok v
      rw [lookupAssoc_setAssoc_self]
      exact anyCast_inject t v

/-- C9 witness: on the fresh slot, `exists("hp")` is false; after
`set("hp", 1)` it is true and `get<int>("hp")` returns `1`. -/
theorem c9_attribute_round_trip_witness :
    attrExists demoObjSlot "hp" = .ok false ∧
    (∃ s', attrSet demoObjSlot "hp" (AnyV.int 1) = .ok s' ∧
        attrExists s' "hp" = .ok true ∧ attrGet .tint s' "hp" = .ok 1) :=
  ⟨(c9_attribute_round_trip demoObjSlot 7 rfl "hp" .tint 1).1 rfl,
   (c9_attribute_round_trip demoObjSlot 7 rfl "hp" .tint 1).2⟩

/-- C9 counterexample: `exists(K)` is not false before every `set(K, V)`.
Starting from the fresh slot, `set("hp", 1)` yields `demoAttrSlot`; before
the subsequent `set("hp", 2)`, `exists("hp")` is already true (the claim
says it is false before `set(K, V)` for every non-empty slot and key), and
the second set overwrites the entry. -/
theorem c9_counterexample_exists_true_before_set :
    attrSet demoObjSlot "hp" (AnyV.int 1) = .ok demoAttrSlot ∧
    attrExists demoAttrSlot "hp" = .ok true ∧
    (∃ s2, attrSet demoAttrSlot "hp" (AnyV.int 2) = .ok s2 ∧
        attrGet .tint s2 "hp" = .ok 2) := by
  refine ⟨rfl, rfl, ⟨_, rfl, rfl⟩⟩

end PylChildPtr